import Mathlib

/-!
Verification of the thornpy signal/utilities/numtype modules.

Python strings are modelled as `List Char` (ASCII-faithful), Python floats as `ℚ`
(exact arithmetic), numpy arrays as Lean lists.  Out-of-range numpy indexing that
cannot occur in the modelled executions is rendered with `List.getD` defaults.
-/

namespace Thornpy

/-! ### Python string primitives -/

/-- Model of Python `str.lower` restricted to ASCII characters. -/
def asciiLower (c : Char) : Char :=
  if 65 ≤ c.toNat ∧ c.toNat ≤ 90 then Char.ofNat (c.toNat + 32) else c

def pyLower (s : List Char) : List Char := s.map asciiLower

/-- Model of Python `str.startswith`. -/
def startsWithL : List Char → List Char → Bool
  | _, [] => true
  | [], _ :: _ => false
  | c :: cs, p :: ps => c = p && startsWithL cs ps

/-- Model of Python `str.endswith`. -/
def endsWithL (s p : List Char) : Bool := startsWithL s.reverse p.reverse

/-- Index of the first occurrence of `sep` inside a string, if any. -/
def findSepIdx (sep : List Char) : List Char → Option Nat
  | [] => if startsWithL [] sep then some 0 else none
  | c :: rest =>
    if startsWithL (c :: rest) sep then some 0
    else (findSepIdx sep rest).map (· + 1)

/-- Fuelled worker for Python `str.split(sep)` (with a non-empty separator). -/
def pySplitF (sep : List Char) : Nat → List Char → List (List Char)
  | 0, s => [s]
  | f + 1, s =>
    match findSepIdx sep s with
    | none => [s]
    | some i => s.take i :: pySplitF sep f (s.drop (i + sep.length))

/-- Model of Python `str.split(sep)` for a non-empty separator `sep`. -/
def pySplit (sep s : List Char) : List (List Char) := pySplitF sep (s.length + 1) s

/-- Model of Python `str.replace(old, "", 1)` for a single character `old`:
removes the first occurrence of `c`, if present. -/
def removeFirst (c : Char) : List Char → List Char
  | [] => []
  | x :: xs => if x = c then xs else x :: removeFirst c xs

/-- Model of Python `str.isdigit` (ASCII digits): non-empty and all digits. -/
def pyIsDigit (s : List Char) : Bool :=
  !s.isEmpty && s.all Char.isDigit

/-! ### thorpy/numtype.py -/

/-- Function `str_is_float` from numtype.py: guard on non-empty string, then
`numeric_string.replace('.','',1).replace('-','',1).isdigit()`. -/
def str_is_float (s : List Char) : Bool :=
  if s.isEmpty then false else pyIsDigit (removeFirst '-' (removeFirst '.' s))

/-- Function `str_is_int` from numtype.py: `numeric_string.replace('-','',1).isdigit()`. -/
def str_is_int (s : List Char) : Bool :=
  if s.isEmpty then false else pyIsDigit (removeFirst '-' s)

/-- Function `str_is_pos_float` from numtype.py: `numeric_string.replace('.','',1).isdigit()`. -/
def str_is_pos_float (s : List Char) : Bool :=
  if s.isEmpty then false else pyIsDigit (removeFirst '.' s)

/-- Function `str_is_pos_int` from numtype.py: `numeric_string.isdigit()`. -/
def str_is_pos_int (s : List Char) : Bool :=
  if s.isEmpty then false else pyIsDigit s

/-! ### thornpy/utilities.py : read_data_string -/

/-- Python dict assignment `d[k] = v`: overwrite in place if the key exists,
otherwise append (insertion order preserved). -/
def dinsert (d : List (List Char × List Char)) (k v : List Char) :
    List (List Char × List Char) :=
  if k ∈ d.map Prod.fst then d.map (fun p => if p.1 = k then (p.1, v) else p)
  else d ++ [(k, v)]

/-- The dictionary built for one data line: `line_data[header] = value` over
`zip(headers, line.split(delimiter))`. -/
def buildRow (headers values : List (List Char)) : List (List Char × List Char) :=
  (headers.zip values).foldl (fun d kv => dinsert d kv.1 kv.2) []

/-- Python `str(n)` for a natural number. -/
def natToChars (n : Nat) : List Char := (toString n).toList

/-- The header list of `read_data_string`: the first line's fields when
`has_headerline` is true, otherwise the generic headers `"1", "2", ...`
generated from the first line's field count. -/
def rds_headers (text delim newline : List Char) (hasHeader : Bool) : List (List Char) :=
  let lines := pySplit newline text
  if hasHeader then pySplit delim (lines.headD [])
  else (List.range (pySplit delim (lines.headD [])).length).map (fun i => natToChars (i + 1))

/-- Function `read_data_string` from utilities.py.  Splits `text` into lines, takes the
headers from the first line (or generates `"1", "2", ...` from the first line's
field count), and collects a dictionary for every data line whose field count
equals the header count, skipping all other lines. -/
def read_data_string (text delim newline : List Char) (hasHeader : Bool) :
    List (List (List Char × List Char)) :=
  let lines := pySplit newline text
  let headers := rds_headers text delim newline hasHeader
  let body := if hasHeader then lines.tail else lines
  body.foldl
    (fun acc line =>
      if (pySplit delim line).length = headers.length then
        acc ++ [buildRow headers (pySplit delim line)]
      else acc)
    []

/-! ### thornpy/signal.py : step_function -/

/-- Function `step_function` from signal.py: three list comprehensions over `index`,
concatenated (`ind <= start`, `start < ind < end`, `ind >= end`). -/
def step_function (index : List ℚ) (start init_val endv final_val : ℚ) : List ℚ :=
  let height := final_val - init_val
  ((index.filter (fun ind => decide (ind ≤ start))).map (fun _ => init_val))
    ++ ((index.filter (fun ind => decide (start < ind) && decide (ind < endv))).map
        (fun ind =>
          init_val + height * ((ind - start) / (endv - start)) ^ 2
            * (3 - 2 * ((ind - start) / (endv - start)))))
    ++ ((index.filter (fun ind => decide (endv ≤ ind))).map (fun _ => final_val))

/-! ### thornpy/signal.py : check_num_points -/

/-- Outcome of `check_num_points`: normal return, a `ValueError` whose message
names a suggested window size, or a `ValueError` with no suggestion. -/
inductive CheckResult where
  | ok : CheckResult
  | errorSuggest (nfft num suggested : Nat) : CheckResult
  | errorNoSuggest (nfft num : Nat) : CheckResult
deriving DecidableEq

/-- Function `check_num_points` from signal.py: if `num < n_fft`, scan
`[2**e for e in range(100)][::-1]` (descending) and raise at the first power of
two that is `≤ num`, naming it; if the loop finds none, raise with no suggestion. -/
def check_num_points (num nfft : Nat) : CheckResult :=
  if num < nfft then
    match (List.range 100).reverse.find? (fun e => decide (2 ^ e ≤ num)) with
    | some e => .errorSuggest nfft num (2 ^ e)
    | none => .errorNoSuggest nfft num
  else .ok

/-! ### thornpy/signal.py : get_window -/

/-- The four scipy window functions selectable in `get_window`. -/
inductive WindowFn where
  | hann : WindowFn
  | hamming : WindowFn
  | blackman : WindowFn
  | boxcar : WindowFn
deriving DecidableEq

/-- Function `get_window` from signal.py: exact string dispatch, `boxcar` for
`'rectangular'`, `'boxcar'` and `None`, `ValueError` otherwise. -/
def get_window (window : Option (List Char)) : Except (List Char) WindowFn :=
  if window = some ("hanning".toList) then .ok .hann
  else if window = some ("hamming".toList) then .ok .hamming
  else if window = some ("blackman".toList) then .ok .blackman
  else if window = some ("rectangular".toList) ∨ window = some ("boxcar".toList)
      ∨ window = none then .ok .boxcar
  else .error ("not recognized as a window".toList)

/-- The window argument that `fft_watefall` actually passes to its spectrogram
call (signal.py line 143): none at all — the call on line 142 that would have
passed `get_window(window)` is commented out, and `fft_watefall` has no
`window` parameter. -/
def fft_watefall_window_argument : Option (Option (List Char)) := none

/-! ### thornpy/signal.py : _get_conversion_to_hz -/

/-- Function `_get_conversion_to_hz` from signal.py.  The Python function assigns
`input_to_hz` only in the three recognized branches and then executes
`return input_to_hz`; when no branch fired this raises `UnboundLocalError`,
modelled as `none`. -/
def get_conversion_to_hz (input_unit : List Char) : Option ℚ :=
  if pyLower input_unit = "rpm".toList then some (1 / 60)
  else if pyLower input_unit = "hz".toList then some 1
  else if startsWithL (pyLower input_unit) ("deg".toList)
      ∧ (endsWithL (pyLower input_unit) ("/s".toList)
        ∨ endsWithL (pyLower input_unit) ("/sec".toList)) then some (1 / 360)
  else none

/-! ### thornpy/signal.py : fft_watefall lines 195-196 (input-speed bins) -/

/-- Index of the first `true` in a boolean list, if any. -/
def firstTrue : List Bool → Option Nat
  | [] => none
  | b :: bs => if b then some 0 else (firstTrue bs).map (· + 1)

/-- Model of `np.argmax` of a boolean array: index of the first `true`, or `0` when all
entries are `false` (the maximum of an all-`False` array is its first entry). -/
def argmaxBool (l : List Bool) : Nat := (firstTrue l).getD 0

/-- Line 195: `input_sig_rpm = [abs(v*input_conversion_factor) for v in input_sig]`. -/
def input_sig_rpm (input_sig : List ℚ) (factor : ℚ) : List ℚ :=
  input_sig.map (fun v => |v * factor|)

/-- Line 196: `input_bins = [abs(input_sig_rpm[np.argmax(time>=t_bn+time[0])])
for t_bn in bins]`. -/
def input_bins (time isr bins : List ℚ) : List ℚ :=
  bins.map (fun tbn =>
    |isr.getD (argmaxBool (time.map (fun t => decide (tbn + time.headD 0 ≤ t)))) 0|)

/-! ### thornpy/signal.py : _find_nearest and _order_cut_plot -/

/-- Index of the first minimum of a list (`numpy.argmin` semantics: ties go to
the lowest index; `0` on the empty list). -/
def argminList : List ℚ → Nat
  | [] => 0
  | [_] => 0
  | a :: b :: rest =>
    let j := argminList (b :: rest)
    if a ≤ (b :: rest).getD j 0 then 0 else j + 1

/-- Function `_find_nearest` from signal.py: `(np.abs(array - value)).argmin()`. -/
def find_nearest (array : List ℚ) (value : ℚ) : Nat :=
  argminList (array.map (fun a => |a - value|))

/-- Line 362: `freqs_to_plot = [in_sig*input_to_hz*order for in_sig in input_sig]`. -/
def freqs_to_plot (input_sig : List ℚ) (input_to_hz order : ℚ) : List ℚ :=
  input_sig.map (fun s => s * input_to_hz * order)

/-- Line 363: `i_freqs = [_find_nearest(freqs, f) for f in freqs_to_plot]`. -/
def i_freqs (freqs input_sig : List ℚ) (input_to_hz order : ℚ) : List Nat :=
  (freqs_to_plot input_sig input_to_hz order).map (find_nearest freqs)

/-- Line 365: `amp = [Pxx[i][j] for i,j in zip(i_freqs,range(len(input_sig)))]`. -/
def order_cut_amp (Pxx : List (List ℚ)) (ifr : List Nat) (n : Nat) : List ℚ :=
  (ifr.zip (List.range n)).map (fun ij => (Pxx.getD ij.1 []).getD ij.2 0)

/-- The order cut extracted by `_order_cut_plot` for a single order: the
sequence of (input-speed-bin, amplitude) pairs that line 367 plots against
each other. -/
def order_cut (freqs input_sig : List ℚ) (Pxx : List (List ℚ)) (input_to_hz order : ℚ) :
    List (ℚ × ℚ) :=
  input_sig.zip (order_cut_amp Pxx (i_freqs freqs input_sig input_to_hz order) input_sig.length)

/-! ### thornpy/signal.py : _clean_sig (scipy find_peaks semantics) -/

/-- Model of `np.mean` of a list. -/
def npMean (sig : List ℚ) : ℚ := sig.sum / sig.length

/-- Model of `np.var` (population variance); `np.std` is its square root. -/
def npVariance (sig : List ℚ) : ℚ :=
  (sig.map (fun v => (v - npMean sig) ^ 2)).sum / sig.length

/-- Plateau scan of scipy `_local_maxima_1d`:
`while i_ahead < i_max and x[i_ahead] == x[i]: i_ahead += 1` (fuelled). -/
def plateauScan (x : List ℚ) (imax : Nat) (v : ℚ) : Nat → Nat → Nat
  | 0, j => j
  | f + 1, j =>
    if j < imax ∧ x.getD j 0 = v then plateauScan x imax v f (j + 1) else j

/-- Main loop of scipy `_local_maxima_1d` (fuelled): scan `i` from `1` while
`i < i_max`; on a rise followed by a fall (possibly across a plateau) record the
plateau midpoint and resume after the plateau. -/
def localMaxAux (x : List ℚ) (imax : Nat) : Nat → Nat → List Nat
  | 0, _ => []
  | f + 1, i =>
    if i < imax then
      if x.getD (i - 1) 0 < x.getD i 0 then
        if x.getD (plateauScan x imax (x.getD i 0) imax (i + 1)) 0 < x.getD i 0 then
          (i + plateauScan x imax (x.getD i 0) imax (i + 1) - 1) / 2
            :: localMaxAux x imax f (plateauScan x imax (x.getD i 0) imax (i + 1) + 1)
        else localMaxAux x imax f (i + 1)
      else localMaxAux x imax f (i + 1)
    else []

/-- scipy `_local_maxima_1d`: all interior local maxima (plateau midpoints). -/
def local_maxima_1d (x : List ℚ) : List Nat :=
  localMaxAux x (x.length - 1) x.length 1

/-- scipy `find_peaks(x, threshold=t)`: local maxima whose vertical distance to
each of the two immediate neighbours is at least `t`. -/
def find_peaks (x : List ℚ) (t : ℚ) : List Nat :=
  (local_maxima_1d x).filter (fun p =>
    decide (t ≤ x.getD p 0 - x.getD (p - 1) 0)
      && decide (t ≤ x.getD p 0 - x.getD (p + 1) 0))

/-- The replacement loop of `_clean_sig`:
`for i_pk in i_pks: sig[i_pk] = np.mean([sig[i_pk-1], sig[i_pk+1]])`. -/
def cleanLoop : List ℚ → List Nat → List ℚ
  | sig, [] => sig
  | sig, i :: rest => cleanLoop (sig.set i ((sig.getD (i - 1) 0 + sig.getD (i + 1) 0) / 2)) rest

/-- Function `_clean_sig` from signal.py with the peak threshold `t = np.std(sig)*n_sigma`
passed explicitly (the standard deviation is an irrational square root in
general, so callers relate `t` to `n_sigma` via `t ^ 2 = npVariance sig * n_sigma ^ 2`). -/
def clean_sig (sig : List ℚ) (t : ℚ) : List ℚ × List Nat :=
  let ipks := find_peaks (sig.map (fun v => |v|)) t
  (cleanLoop sig ipks, ipks)

/-! ## Helper lemmas -/

lemma mem_removeFirst_of_ne {c d : Char} {s : List Char} (h : c ≠ d) :
    c ∈ removeFirst d s ↔ c ∈ s := by
  induction s with
  | nil => simp [removeFirst]
  | cons x xs ih =>
    by_cases hx : x = d
    · subst hx
      simp [removeFirst, h, ih]
    · simp [removeFirst, hx, ih]

lemma removeFirst_of_not_mem {d : Char} {s : List Char} (h : d ∉ s) :
    removeFirst d s = s := by
  induction s with
  | nil => rfl
  | cons x xs ih =>
    simp only [List.mem_cons, not_or] at h
    simp [removeFirst, Ne.symm h.1, ih h.2]

/-! ## C10 : numeric-string classifier hierarchy -/

/-- Claim C10: the numeric-string classifiers are ordered: a positive-integer
string is also an integer string and a positive-float string; an integer string
is also a float string; and all four classifiers reject the empty string. -/
theorem c10_classifier_hierarchy (s : List Char) :
    (str_is_pos_int s = true → str_is_int s = true ∧ str_is_pos_float s = true)
    ∧ (str_is_int s = true → str_is_float s = true)
    ∧ str_is_pos_int [] = false ∧ str_is_int [] = false
    ∧ str_is_pos_float [] = false ∧ str_is_float [] = false := by
  refine ⟨?_, ?_, rfl, rfl, rfl, rfl⟩
  · intro h
    rw [str_is_pos_int] at h
    by_cases he : s.isEmpty
    · simp [he] at h
    · rw [if_neg he] at h
      have hdig : ∀ c ∈ s, c.isDigit = true := by
        intro c hc
        exact List.all_eq_true.mp (Bool.and_elim_right h) c hc
      have hminus : ('-' : Char) ∉ s := fun hm => by simpa using hdig '-' hm
      have hdot : ('.' : Char) ∉ s := fun hm => by simpa using hdig '.' hm
      constructor
      · rw [str_is_int, if_neg he, removeFirst_of_not_mem hminus]
        exact h
      · rw [str_is_pos_float, if_neg he, removeFirst_of_not_mem hdot]
        exact h
  · intro h
    rw [str_is_int] at h
    by_cases he : s.isEmpty
    · simp [he] at h
    · rw [if_neg he] at h
      have hdig : ∀ c ∈ removeFirst '-' s, c.isDigit = true := by
        intro c hc
        exact List.all_eq_true.mp (Bool.and_elim_right h) c hc
      have hdot : ('.' : Char) ∉ s := by
        intro hm
        have : ('.' : Char) ∈ removeFirst '-' s :=
          (mem_removeFirst_of_ne (by decide)).mpr hm
        simpa using hdig '.' this
      rw [str_is_float, if_neg he, removeFirst_of_not_mem hdot]
      exact h

/-- Witness for C10 at the concrete strings "15" and "-15". -/
theorem c10_classifier_hierarchy_witness :
    (str_is_int "15".toList = true ∧ str_is_pos_float "15".toList = true)
    ∧ str_is_float "-15".toList = true :=
  ⟨(c10_classifier_hierarchy "15".toList).1 (by decide),
   (c10_classifier_hierarchy "-15".toList).2.1 (by decide)⟩

/-! ## C8 : step_function output length -/

lemma step_function_parts_length (index : List ℚ) (start endv : ℚ) (h : start < endv) :
    (index.filter (fun ind => decide (ind ≤ start))).length
      + (index.filter (fun ind => decide (start < ind) && decide (ind < endv))).length
      + (index.filter (fun ind => decide (endv ≤ ind))).length = index.length := by
  induction index with
  | nil => simp
  | cons x xs ih =>
    simp only [List.filter_cons]
    rcases lt_trichotomy x start with h1 | h1 | h1
    · rw [if_pos (by simp only [decide_eq_true_eq]; exact h1.le),
        if_neg (by
          simp only [Bool.and_eq_true, decide_eq_true_eq]
          rintro ⟨hsx, _⟩
          exact absurd hsx (not_lt.mpr h1.le)),
        if_neg (by simp only [decide_eq_true_eq]; exact not_le.mpr (h1.trans h))]
      simp only [List.length_cons]
      omega
    · subst h1
      rw [if_pos (by simp only [decide_eq_true_eq]; exact le_refl x),
        if_neg (by
          simp only [Bool.and_eq_true, decide_eq_true_eq]
          rintro ⟨hsx, _⟩
          exact lt_irrefl x hsx),
        if_neg (by simp only [decide_eq_true_eq]; exact not_le.mpr h)]
      simp only [List.length_cons]
      omega
    · by_cases h3 : x < endv
      · rw [if_neg (by simp only [decide_eq_true_eq]; exact not_le.mpr h1),
          if_pos (by simp only [Bool.and_eq_true, decide_eq_true_eq]; exact ⟨h1, h3⟩),
          if_neg (by simp only [decide_eq_true_eq]; exact not_le.mpr h3)]
        simp only [List.length_cons]
        omega
      · rw [if_neg (by simp only [decide_eq_true_eq]; exact not_le.mpr h1),
          if_neg (by
            simp only [Bool.and_eq_true, decide_eq_true_eq]
            rintro ⟨_, hxe⟩
            exact h3 hxe),
          if_pos (by simp only [decide_eq_true_eq]; exact not_lt.mp h3)]
        simp only [List.length_cons]
        omega

/-- Claim C8: when `start < end` the output of `step_function` has exactly one
element per input element; when `start = end` every input element equal to the
common boundary is emitted twice (once as `init_val`, once as `final_val`), and
in particular `step_function [2, 3, 3.5, 4, 5] 3 0 3 1` has 6 elements, not 5. -/
theorem c8_step_function_length (index : List ℚ) (start init_val endv final_val : ℚ) :
    (start < endv →
      (step_function index start init_val endv final_val).length = index.length)
    ∧ (start = endv →
      step_function index start init_val endv final_val
        = ((index.filter (fun ind => decide (ind ≤ start))).map (fun _ => init_val))
          ++ ((index.filter (fun ind => decide (start ≤ ind))).map (fun _ => final_val))
        ∧ (step_function index start init_val endv final_val).length
          = index.length + (index.filter (fun ind => decide (ind = start))).length)
    ∧ (step_function [2, 3, 7/2, 4, 5] 3 0 3 1).length = 6 := by
  refine ⟨?_, ?_, by norm_num [step_function, List.filter]⟩
  · intro h
    simp only [step_function, List.length_append, List.length_map]
    exact step_function_parts_length index start endv h
  · intro h
    subst h
    have hmid : index.filter (fun ind => decide (start < ind) && decide (ind < start)) = [] := by
      apply List.filter_eq_nil_iff.mpr
      intro a _
      simp only [Bool.and_eq_true, decide_eq_true_eq]
      rintro ⟨h1, h2⟩
      exact absurd (h1.trans h2) (lt_irrefl start)
    constructor
    · simp [step_function, hmid, ge_iff_le]
    · simp only [step_function, hmid, List.map_nil, List.append_nil, List.nil_append,
        List.length_append, List.length_map]
      have hsplit : ∀ l : List ℚ,
          (l.filter (fun ind => decide (ind ≤ start))).length
            + (l.filter (fun ind => decide (start ≤ ind))).length
          = l.length + (l.filter (fun ind => decide (ind = start))).length := by
        intro l
        induction l with
        | nil => simp
        | cons x xs ih =>
          simp only [List.filter_cons]
          rcases lt_trichotomy x start with h1 | h1 | h1
          · rw [if_pos (by simp only [decide_eq_true_eq]; exact h1.le),
              if_neg (by simp only [decide_eq_true_eq]; exact not_le.mpr h1),
              if_neg (by simp only [decide_eq_true_eq]; exact h1.ne)]
            simp only [List.length_cons]
            omega
          · subst h1
            rw [if_pos (by simp only [decide_eq_true_eq]; exact le_refl x),
              if_pos (by simp only [decide_eq_true_eq]; exact le_refl x),
              if_pos (by simp only [decide_eq_true_eq])]
            simp only [List.length_cons]
            omega
          · rw [if_neg (by simp only [decide_eq_true_eq]; exact not_le.mpr h1),
              if_pos (by simp only [decide_eq_true_eq]; exact h1.le),
              if_neg (by simp only [decide_eq_true_eq]; exact h1.ne.symm)]
            simp only [List.length_cons]
            omega
      exact hsplit index

/-- Witness for C8 at concrete inputs for both regimes. -/
theorem c8_step_function_length_witness :
    (step_function [0, 1, 2] (1/2) 0 (3/2) 1).length = ([0, 1, 2] : List ℚ).length
    ∧ (step_function [2, 3, 7/2, 4, 5] 3 0 3 1).length
        = ([2, 3, 7/2, 4, 5] : List ℚ).length
          + (([2, 3, 7/2, 4, 5] : List ℚ).filter (fun ind => decide (ind = 3))).length :=
  ⟨(c8_step_function_length [0, 1, 2] (1/2) 0 (3/2) 1).1 (by norm_num),
   ((c8_step_function_length [2, 3, 7/2, 4, 5] 3 0 3 1).2.1 rfl).2⟩

/-! ## C2 : check_num_points (window-size validation) -/

lemma find_pow2_descending (n num : Nat) (h1 : 1 ≤ num) (h2 : num < 2 ^ n) :
    ∃ e, (List.range n).reverse.find? (fun e => decide (2 ^ e ≤ num)) = some e
      ∧ 2 ^ e ≤ num ∧ num < 2 ^ (e + 1) := by
  induction n with
  | zero => omega
  | succ m ih =>
    rw [List.range_succ, List.reverse_append, List.reverse_singleton, List.singleton_append,
      List.find?_cons]
    by_cases hm : 2 ^ m ≤ num
    · refine ⟨m, ?_, hm, h2⟩
      simp [hm]
    · have hlt : num < 2 ^ m := not_le.mp hm
      obtain ⟨e, he, hle, hup⟩ := ih hlt
      refine ⟨e, ?_, hle, hup⟩
      simp only [not_le.mpr hlt, decide_False]
      exact he

/-- Claim C2 (amended): `check_num_points` raises exactly when `n_fft` exceeds
the sample count (equality raises nothing); for a positive sample count (below
the code's search range bound `2 ^ 100`) the error names the largest power of
two that is at most the sample count; the suggestion-free unconditional error
occurs exactly for a sample count of zero. -/
theorem c2_check_num_points (num nfft : Nat) :
    (nfft ≤ num → check_num_points num nfft = .ok)
    ∧ (num < nfft → 1 ≤ num → num < 2 ^ 100 →
        ∃ e, check_num_points num nfft = .errorSuggest nfft num (2 ^ e)
          ∧ 2 ^ e ≤ num ∧ (∀ k, 2 ^ k ≤ num → 2 ^ k ≤ 2 ^ e))
    ∧ (num = 0 → num < nfft → check_num_points num nfft = .errorNoSuggest nfft num) := by
  refine ⟨?_, ?_, ?_⟩
  · intro h
    rw [check_num_points, if_neg (not_lt.mpr h)]
  · intro hlt h1 h2
    obtain ⟨e, he, hle, hup⟩ := find_pow2_descending 100 num h1 h2
    refine ⟨e, ?_, hle, ?_⟩
    · rw [check_num_points, if_pos hlt, he]
    · intro k hk
      have : k < e + 1 := by
        by_contra hc
        have : 2 ^ (e + 1) ≤ 2 ^ k := Nat.pow_le_pow_right (by norm_num) (not_lt.mp hc)
        omega
      exact Nat.pow_le_pow_right (by norm_num) (by omega)
  · intro h0 hlt
    subst h0
    rw [check_num_points, if_pos hlt]
    have : (List.range 100).reverse.find? (fun e => decide (2 ^ e ≤ 0)) = none := by
      apply List.find?_eq_none.mpr
      intro e _
      simp [Nat.pos_of_ne_zero, Nat.pow_eq_zero]
    rw [this]

/-- Witness for C2 at sample counts 8 (no error), 5 (error suggesting 4) and
0 (unconditional error). -/
theorem c2_check_num_points_witness :
    check_num_points 8 8 = CheckResult.ok
    ∧ (∃ e, check_num_points 5 8 = CheckResult.errorSuggest 8 5 (2 ^ e)
        ∧ 2 ^ e ≤ 5 ∧ (∀ k, 2 ^ k ≤ 5 → 2 ^ k ≤ 2 ^ e))
    ∧ check_num_points 0 3 = CheckResult.errorNoSuggest 3 0 :=
  ⟨(c2_check_num_points 8 8).1 (by norm_num),
   (c2_check_num_points 5 8).2.1 (by norm_num) (by norm_num) (by norm_num),
   (c2_check_num_points 0 3).2.2 rfl (by norm_num)⟩

/-- Counterexample for C2 as stated: with a single sample (`num = 1`, which is
"fewer than 2 samples") and `n_fft = 2`, the code does not report an
unconditional suggestion-free error; it finds the fitting power of two
`1 = 2 ^ 0` and raises the error that suggests it. -/
theorem c2_check_num_points_counterexample :
    check_num_points 1 2 = CheckResult.errorSuggest 2 1 1 := by decide

/-! ## C6 : get_window dispatch (and the unused selection in fft_watefall) -/

/-- Claim C6 (window selection as implemented by `get_window`): `'hanning'`,
`'hamming'`, `'blackman'` select the matching windows, `'rectangular'`,
`'boxcar'` and an unspecified window select the rectangular (boxcar) window, and
any other name is a `ValueError`; but the spectrogram call of `fft_watefall`
passes no window argument at all (the `get_window` call is commented out), so
this selection is never applied. -/
theorem c6_get_window_dispatch :
    get_window (some "hanning".toList) = .ok .hann
    ∧ get_window (some "hamming".toList) = .ok .hamming
    ∧ get_window (some "blackman".toList) = .ok .blackman
    ∧ get_window (some "rectangular".toList) = .ok .boxcar
    ∧ get_window (some "boxcar".toList) = .ok .boxcar
    ∧ get_window none = .ok .boxcar
    ∧ (∀ w : List Char, w ∉ [("hanning".toList), ("hamming".toList), ("blackman".toList),
          ("rectangular".toList), ("boxcar".toList)] →
        get_window (some w) = .error ("not recognized as a window".toList))
    ∧ fft_watefall_window_argument = none := by
  refine ⟨rfl, rfl, rfl, rfl, rfl, rfl, ?_, rfl⟩
  intro w hw
  simp only [List.mem_cons, List.not_mem_nil, or_false, not_or] at hw
  obtain ⟨h1, h2, h3, h4, h5⟩ := hw
  rw [get_window, if_neg (by simpa using h1), if_neg (by simpa using h2),
    if_neg (by simpa using h3),
    if_neg (by
      push_neg
      refine ⟨by simpa using h4, by simpa using h5, by simp⟩)]

/-- Witness for C6 at the concrete unrecognized window name `'kaiser'`. -/
theorem c6_get_window_dispatch_witness :
    get_window (some "kaiser".toList) = .error ("not recognized as a window".toList) :=
  (c6_get_window_dispatch).2.2.2.2.2.2.1 "kaiser".toList (by decide)

/-! ## C4 : _get_conversion_to_hz (unit conversion) -/

/-- Claim C4 (amended): the factor is `1/60` for `rpm`, `1` for `hz` (both
case-insensitive), and `1/360` for every unit tag whose lowercased form starts
with `deg` and ends with `/s` or `/sec` — a family that contains the four
spellings `deg/s`, `degs/s`, `deg/sec`, `degs/sec` but is strictly larger; any
other tag (such as `furlongs/fortnight`) produces no conversion factor (the
function falls through all branches and fails); round-trip: an `RPM` value
converted to Hz and multiplied by 60 is reproduced exactly. -/
theorem c4_get_conversion_to_hz (u : List Char) (v : ℚ) :
    (pyLower u = "rpm".toList → get_conversion_to_hz u = some (1 / 60))
    ∧ (pyLower u = "hz".toList → get_conversion_to_hz u = some 1)
    ∧ (startsWithL (pyLower u) ("deg".toList) = true →
        (endsWithL (pyLower u) ("/s".toList) = true
          ∨ endsWithL (pyLower u) ("/sec".toList) = true) →
        get_conversion_to_hz u = some (1 / 360))
    ∧ ((startsWithL (pyLower u) ("deg".toList) = false
          ∨ (endsWithL (pyLower u) ("/s".toList) = false
            ∧ endsWithL (pyLower u) ("/sec".toList) = false)) →
        pyLower u ≠ "rpm".toList → pyLower u ≠ "hz".toList →
        get_conversion_to_hz u = none)
    ∧ get_conversion_to_hz "deg/s".toList = some (1 / 360)
    ∧ get_conversion_to_hz "DEGS/S".toList = some (1 / 360)
    ∧ get_conversion_to_hz "Deg/Sec".toList = some (1 / 360)
    ∧ get_conversion_to_hz "degs/sec".toList = some (1 / 360)
    ∧ get_conversion_to_hz "furlongs/fortnight".toList = none
    ∧ v * (1 / 60) * 60 = v := by
  refine ⟨?_, ?_, ?_, ?_,
    by rw [get_conversion_to_hz, if_neg (by decide), if_neg (by decide), if_pos (by decide)],
    by rw [get_conversion_to_hz, if_neg (by decide), if_neg (by decide), if_pos (by decide)],
    by rw [get_conversion_to_hz, if_neg (by decide), if_neg (by decide), if_pos (by decide)],
    by rw [get_conversion_to_hz, if_neg (by decide), if_neg (by decide), if_pos (by decide)],
    by rw [get_conversion_to_hz, if_neg (by decide), if_neg (by decide), if_neg (by decide)],
    by ring⟩
  · intro h
    rw [get_conversion_to_hz, if_pos h]
  · intro h
    have hne : pyLower u ≠ "rpm".toList := by
      rw [h]
      decide
    rw [get_conversion_to_hz, if_neg hne, if_pos h]
  · intro hs he
    by_cases h1 : pyLower u = "rpm".toList
    · rw [h1] at hs
      exact absurd hs (by decide)
    by_cases h2 : pyLower u = "hz".toList
    · rw [h2] at hs
      exact absurd hs (by decide)
    rw [get_conversion_to_hz, if_neg h1, if_neg h2, if_pos ⟨hs, he⟩]
  · intro hno h1 h2
    rw [get_conversion_to_hz, if_neg h1, if_neg h2, if_neg (by
      rintro ⟨hs', he'⟩
      rcases hno with hs | ⟨he1, he2⟩
      · rw [hs] at hs'
        exact Bool.false_ne_true hs'
      · rcases he' with h | h
        · rw [he1] at h
          exact Bool.false_ne_true h
        · rw [he2] at h
          exact Bool.false_ne_true h)]

/-- Witness for C4: the `rpm` branch at the concrete tag `"RPM"`, the deg
branch at `"degrees/sec"`, the error branch at the deg-prefixed but
wrongly-suffixed tag `"deg/min"`, and the error branch at
`"furlongs/fortnight"`. -/
theorem c4_get_conversion_to_hz_witness :
    get_conversion_to_hz "RPM".toList = some (1 / 60)
    ∧ get_conversion_to_hz "degrees/sec".toList = some (1 / 360)
    ∧ get_conversion_to_hz "deg/min".toList = none
    ∧ get_conversion_to_hz "furlongs/fortnight".toList = none :=
  ⟨(c4_get_conversion_to_hz "RPM".toList 0).1 (by decide),
   (c4_get_conversion_to_hz "degrees/sec".toList 0).2.2.1 (by decide) (Or.inr (by decide)),
   (c4_get_conversion_to_hz "deg/min".toList 0).2.2.2.1
     (Or.inr ⟨by decide, by decide⟩) (by decide) (by decide),
   (c4_get_conversion_to_hz "furlongs/fortnight".toList 0).2.2.2.1 (Or.inl (by decide))
     (by decide) (by decide)⟩

/-- Counterexample for C4 as stated: `"degrees/sec"` is not one of the four
listed deg spellings (and not RPM or Hz), so by the claim it should be an
unrecognized-unit error, yet the code recognizes it and returns the deg/s
factor `1/360`. -/
theorem c4_get_conversion_to_hz_counterexample :
    get_conversion_to_hz "degrees/sec".toList = some (1 / 360)
    ∧ ("degrees/sec".toList ∉
        [("deg/s".toList), ("degs/s".toList), ("deg/sec".toList), ("degs/sec".toList),
         ("rpm".toList), ("hz".toList), ("RPM".toList), ("Hz".toList)]) := by
  constructor
  · rw [get_conversion_to_hz, if_neg (by decide), if_neg (by decide), if_pos (by decide)]
  · decide

/-! ## C5 : time-bin to input-speed association -/

lemma getD_map_lt {α β : Type} (f : α → β) (l : List α) (i : Nat) (hi : i < l.length)
    (d : β) (e : α) : (l.map f).getD i d = f (l.getD i e) := by
  rw [List.getD_eq_getElem _ _ (by simpa using hi), List.getElem_map,
    List.getD_eq_getElem _ _ hi]

lemma firstTrue_eq_some {l : List Bool} {j : Nat} (hj : j < l.length)
    (ht : l.getD j false = true) (hf : ∀ i, i < j → l.getD i false = false) :
    firstTrue l = some j := by
  induction l generalizing j with
  | nil => simp at hj
  | cons b bs ih =>
    cases j with
    | zero =>
      rw [List.getD_cons_zero] at ht
      simp [firstTrue, ht]
    | succ j' =>
      have hb : b = false := by
        have := hf 0 (Nat.succ_pos j')
        rwa [List.getD_cons_zero] at this
      rw [firstTrue, if_neg (by simp [hb])]
      have hrec : firstTrue bs = some j' := by
        apply ih
        · simpa using hj
        · rwa [List.getD_cons_succ] at ht
        · intro i hi
          have := hf (i + 1) (by omega)
          rwa [List.getD_cons_succ] at this
      rw [hrec]
      rfl

/-- Claim C5: for the `k`-th spectrogram time bin, when some input sample's time
is at least (time-bin value + first-sample time offset), the associated
input-speed value is the absolute value of the converted speed of the first
such sample (nearest-future-sample semantics). -/
theorem c5_input_bins (time input_sig bins : List ℚ) (factor : ℚ) (k j0 : Nat)
    (hlen : input_sig.length = time.length)
    (hk : k < bins.length) (hj0 : j0 < time.length)
    (hsat : bins.getD k 0 + time.headD 0 ≤ time.getD j0 0)
    (hfirst : ∀ j, j < j0 → time.getD j 0 < bins.getD k 0 + time.headD 0) :
    (input_bins time (input_sig_rpm input_sig factor) bins).getD k 0
      = |input_sig.getD j0 0 * factor| := by
  rw [input_bins, getD_map_lt _ _ _ hk _ 0]
  have hidx : argmaxBool
      (time.map (fun t => decide (bins.getD k 0 + time.headD 0 ≤ t))) = j0 := by
    rw [argmaxBool, firstTrue_eq_some (by simpa using hj0)
      (by rw [getD_map_lt _ _ _ hj0 _ 0]; simpa using hsat)
      (fun i hi => by
        rw [getD_map_lt _ _ _ (by omega) _ 0]
        simpa using not_le.mpr (hfirst i hi))]
    rfl
  rw [hidx, input_sig_rpm, getD_map_lt _ _ _ (by omega) _ 0, abs_abs]

/-- Witness for C5: time `[0, 1, 2, 3]`, converted speeds of `[7, -8, 9, 10]`,
time bin `1/2`: the first sample with time `≥ 1/2 + 0` is sample 1, so the bin
gets `|-8 * 1| = 8`. -/
theorem c5_input_bins_witness :
    (input_bins [0, 1, 2, 3] (input_sig_rpm [7, -8, 9, 10] 1) [1/2, 2]).getD 0 0
      = |([7, -8, 9, 10] : List ℚ).getD 1 0 * 1| :=
  c5_input_bins [0, 1, 2, 3] [7, -8, 9, 10] [1/2, 2] 1 0 1 (by norm_num) (by norm_num)
    (by norm_num) (by norm_num [List.getD])
    (by
      intro j hj
      interval_cases j
      norm_num [List.getD])

/-! ## C1 : order-line locator (order cuts) -/

lemma argminList_spec : ∀ (l : List ℚ), l ≠ [] →
    argminList l < l.length
    ∧ (∀ k, k < l.length → l.getD (argminList l) 0 ≤ l.getD k 0)
    ∧ (∀ k, k < argminList l → l.getD (argminList l) 0 < l.getD k 0)
  | [], h => absurd rfl h
  | [a], _ => by
    refine ⟨by simp [argminList], fun k hk => ?_, fun k hk => ?_⟩
    · have : k = 0 := by simpa [argminList] using Nat.lt_one_iff.mp (by simpa using hk)
      simp [this, argminList]
    · simp [argminList] at hk
  | a :: b :: rest, _ => by
    obtain ⟨ih1, ih2, ih3⟩ := argminList_spec (b :: rest) (List.cons_ne_nil b rest)
    have hdef : argminList (a :: b :: rest)
        = if a ≤ (b :: rest).getD (argminList (b :: rest)) 0 then 0
          else argminList (b :: rest) + 1 := rfl
    by_cases hc : a ≤ (b :: rest).getD (argminList (b :: rest)) 0
    · rw [hdef, if_pos hc]
      refine ⟨by simp, fun k hk => ?_, fun k hk => by omega⟩
      cases k with
      | zero => simp
      | succ k' =>
        rw [List.getD_cons_zero, List.getD_cons_succ]
        exact hc.trans (ih2 k' (by simpa using hk))
    · rw [hdef, if_neg hc]
      push_neg at hc
      refine ⟨by simpa using ih1, fun k hk => ?_, fun k hk => ?_⟩
      · cases k with
        | zero => rw [List.getD_cons_zero, List.getD_cons_succ]; exact hc.le
        | succ k' =>
          rw [List.getD_cons_succ, List.getD_cons_succ]
          exact ih2 k' (by simpa using hk)
      · cases k with
        | zero => rw [List.getD_cons_zero, List.getD_cons_succ]; exact hc
        | succ k' =>
          rw [List.getD_cons_succ, List.getD_cons_succ]
          exact ih3 k' (by omega)

lemma find_nearest_spec (array : List ℚ) (v : ℚ) (h : array ≠ []) :
    find_nearest array v < array.length
    ∧ (∀ k, k < array.length →
        |array.getD (find_nearest array v) 0 - v| ≤ |array.getD k 0 - v|)
    ∧ (∀ k, k < find_nearest array v →
        |array.getD (find_nearest array v) 0 - v| < |array.getD k 0 - v|) := by
  have hm : array.map (fun a => |a - v|) ≠ [] := by simpa using h
  obtain ⟨h1, h2, h3⟩ := argminList_spec _ hm
  rw [List.length_map] at h1
  have hng : find_nearest array v = argminList (array.map (fun a => |a - v|)) := rfl
  refine ⟨by rw [hng]; exact h1, fun k hk => ?_, fun k hk => ?_⟩
  · have := h2 k (by simpa using hk)
    rwa [getD_map_lt _ _ _ h1 _ 0, getD_map_lt _ _ _ hk _ 0] at this
  · rw [hng] at hk
    have hk' : k < array.length := by
      calc k < argminList (array.map (fun a => |a - v|)) := hk
        _ < array.length := h1
    have := h3 k hk
    rwa [getD_map_lt _ _ _ h1 _ 0, getD_map_lt _ _ _ hk' _ 0] at this

/-- Claim C1: the order cut pairs each input-speed bin with the spectrogram
value at the located frequency row; the located row is the frequency-axis entry
with minimum absolute difference from (input speed in Hz × order), where
`_find_nearest` resolves ties to the lowest index (earlier entries are strictly
worse); and for order 1 at 600 RPM the expected frequency is 10 Hz. -/
theorem c1_order_cut (freqs input_sig : List ℚ) (Pxx : List (List ℚ))
    (input_to_hz order : ℚ) (j : Nat) (hne : freqs ≠ []) (hj : j < input_sig.length) :
    ((order_cut freqs input_sig Pxx input_to_hz order)[j]?
        = some (input_sig.getD j 0,
            (Pxx.getD (find_nearest freqs (input_sig.getD j 0 * input_to_hz * order)) []).getD
              j 0))
    ∧ find_nearest freqs (input_sig.getD j 0 * input_to_hz * order) < freqs.length
    ∧ (∀ k, k < freqs.length →
        |freqs.getD (find_nearest freqs (input_sig.getD j 0 * input_to_hz * order)) 0
            - input_sig.getD j 0 * input_to_hz * order|
          ≤ |freqs.getD k 0 - input_sig.getD j 0 * input_to_hz * order|)
    ∧ (∀ k, k < find_nearest freqs (input_sig.getD j 0 * input_to_hz * order) →
        |freqs.getD (find_nearest freqs (input_sig.getD j 0 * input_to_hz * order)) 0
            - input_sig.getD j 0 * input_to_hz * order|
          < |freqs.getD k 0 - input_sig.getD j 0 * input_to_hz * order|)
    ∧ (600 : ℚ) * (1 / 60) * 1 = 10 := by
  obtain ⟨hn1, hn2, hn3⟩ :=
    find_nearest_spec freqs (input_sig.getD j 0 * input_to_hz * order) hne
  refine ⟨?_, hn1, hn2, hn3, by norm_num⟩
  rw [order_cut]
  rw [List.getElem?_zip_eq_some]
  constructor
  · rw [List.getElem?_eq_getElem hj, List.getD_eq_getElem _ _ hj]
  · have hlf : (i_freqs freqs input_sig input_to_hz order).length = input_sig.length := by
      simp [i_freqs, freqs_to_plot]
    rw [order_cut_amp, List.getElem?_map]
    have hz : ((i_freqs freqs input_sig input_to_hz order).zip
        (List.range input_sig.length))[j]?
          = some (find_nearest freqs (input_sig.getD j 0 * input_to_hz * order), j) := by
      rw [List.getElem?_zip_eq_some]
      constructor
      · rw [i_freqs, List.getElem?_map, freqs_to_plot, List.getElem?_map,
          List.getElem?_eq_getElem hj]
        simp only [Option.map_some']
        rw [List.getD_eq_getElem _ _ hj]
      · exact List.getElem?_range hj
    rw [hz]
    rfl

/-- Witness for C1: one input-speed bin at 600 RPM, order 1 (expected frequency
10 Hz), frequency axis `[0, 5, 9, 11, 20]`: the located row is the nearest
entry to 10 Hz and the order cut pairs the bin with that row's value. -/
theorem c1_order_cut_witness :
    ((order_cut [0, 5, 9, 11, 20] [600] [[1], [2], [3], [4], [5]] (1/60) 1)[0]?
        = some (([600] : List ℚ).getD 0 0,
            (([[1], [2], [3], [4], [5]] : List (List ℚ)).getD
              (find_nearest [0, 5, 9, 11, 20]
                (([600] : List ℚ).getD 0 0 * (1/60) * 1)) []).getD 0 0))
    ∧ find_nearest [0, 5, 9, 11, 20] (([600] : List ℚ).getD 0 0 * (1/60) * 1)
        < ([0, 5, 9, 11, 20] : List ℚ).length :=
  ⟨(c1_order_cut [0, 5, 9, 11, 20] [600] [[1], [2], [3], [4], [5]] (1/60) 1 0
      (List.cons_ne_nil _ _) (by norm_num)).1,
   (c1_order_cut [0, 5, 9, 11, 20] [600] [[1], [2], [3], [4], [5]] (1/60) 1 0
      (List.cons_ne_nil _ _) (by norm_num)).2.1⟩

/-! ## C9 : read_data_string row filtering and keys -/

lemma foldl_filter_map {α β : Type} (p : α → Prop) [DecidablePred p] (g : α → β) :
    ∀ (body : List α) (acc : List β),
      body.foldl (fun acc line => if p line then acc ++ [g line] else acc) acc
        = acc ++ (body.filter (fun line => decide (p line))).map g := by
  intro body
  induction body with
  | nil => simp
  | cons x xs ih =>
    intro acc
    by_cases hx : p x
    · rw [List.foldl_cons, if_pos hx, ih,
        List.filter_cons, if_pos (by simpa using hx)]
      simp
    · rw [List.foldl_cons, if_neg hx, ih,
        List.filter_cons, if_neg (by simpa using hx)]

lemma mem_map_fst_dinsert (d : List (List Char × List Char)) (k v a : List Char) :
    a ∈ (dinsert d k v).map Prod.fst ↔ a ∈ d.map Prod.fst ∨ a = k := by
  rw [dinsert]
  by_cases hk : k ∈ d.map Prod.fst
  · rw [if_pos hk, List.map_map]
    have hfun : (Prod.fst ∘ fun p : List Char × List Char =>
        if p.1 = k then (p.1, v) else p) = Prod.fst := by
      funext p
      by_cases hp : p.1 = k <;> simp [hp]
    rw [hfun]
    constructor
    · exact Or.inl
    · rintro (h | rfl)
      · exact h
      · exact hk
  · rw [if_neg hk, List.map_append]
    simp

lemma mem_map_fst_foldl_dinsert :
    ∀ (pairs : List (List Char × List Char)) (d : List (List Char × List Char))
      (a : List Char),
      a ∈ (pairs.foldl (fun d kv => dinsert d kv.1 kv.2) d).map Prod.fst
        ↔ a ∈ d.map Prod.fst ∨ a ∈ pairs.map Prod.fst := by
  intro pairs
  induction pairs with
  | nil => simp
  | cons kv rest ih =>
    intro d a
    rw [List.foldl_cons, ih, mem_map_fst_dinsert]
    simp only [List.map_cons, List.mem_cons]
    tauto

lemma mem_map_fst_buildRow (headers values : List (List Char))
    (hlen : headers.length ≤ values.length) (a : List Char) :
    a ∈ (buildRow headers values).map Prod.fst ↔ a ∈ headers := by
  rw [buildRow, mem_map_fst_foldl_dinsert, List.map_fst_zip _ _ hlen]
  simp

/-- Claim C9: `read_data_string` returns exactly one dictionary per data line
whose field count equals the header count (all other lines are silently
skipped), and every returned dictionary has exactly the header strings as its
keys. -/
theorem c9_read_data_string (text delim newline : List Char) (hasHeader : Bool) :
    (read_data_string text delim newline hasHeader
      = ((if hasHeader then (pySplit newline text).tail else pySplit newline text).filter
            (fun line => decide ((pySplit delim line).length
              = (rds_headers text delim newline hasHeader).length))).map
          (fun line => buildRow (rds_headers text delim newline hasHeader)
            (pySplit delim line)))
    ∧ (∀ row, row ∈ read_data_string text delim newline hasHeader →
        ∀ k, k ∈ row.map Prod.fst ↔ k ∈ rds_headers text delim newline hasHeader) := by
  have heq : read_data_string text delim newline hasHeader
      = ((if hasHeader then (pySplit newline text).tail else pySplit newline text).filter
            (fun line => decide ((pySplit delim line).length
              = (rds_headers text delim newline hasHeader).length))).map
          (fun line => buildRow (rds_headers text delim newline hasHeader)
            (pySplit delim line)) := by
    rw [read_data_string]
    exact foldl_filter_map
      (fun line => (pySplit delim line).length
        = (rds_headers text delim newline hasHeader).length)
      (fun line => buildRow (rds_headers text delim newline hasHeader)
        (pySplit delim line))
      (if hasHeader then (pySplit newline text).tail else pySplit newline text) []
  refine ⟨heq, ?_⟩
  intro row hrow k
  rw [heq] at hrow
  obtain ⟨line, hline, rfl⟩ := List.mem_map.mp hrow
  have hlen : (pySplit delim line).length
      = (rds_headers text delim newline hasHeader).length := by
    have := (List.mem_filter.mp hline).2
    simpa using this
  exact mem_map_fst_buildRow _ _ (le_of_eq hlen.symm) k

/-- Witness for C9: text `"h1,h2\nx,y\nbad\nu,v"`: the malformed line `bad` is
skipped and the first returned row has exactly the keys `h1`, `h2`. -/
theorem c9_read_data_string_witness :
    ("h1".toList ∈ ([("h1".toList, "x".toList), ("h2".toList, "y".toList)].map Prod.fst)
      ↔ "h1".toList ∈ rds_headers "h1,h2\nx,y\nbad\nu,v".toList ",".toList "\n".toList true)
    ∧ ("h3".toList ∈ ([("h1".toList, "x".toList), ("h2".toList, "y".toList)].map Prod.fst)
      ↔ "h3".toList ∈ rds_headers "h1,h2\nx,y\nbad\nu,v".toList ",".toList "\n".toList true) :=
  ⟨(c9_read_data_string "h1,h2\nx,y\nbad\nu,v".toList ",".toList "\n".toList true).2
      [("h1".toList, "x".toList), ("h2".toList, "y".toList)] (by decide) "h1".toList,
   (c9_read_data_string "h1,h2\nx,y\nbad\nu,v".toList ",".toList "\n".toList true).2
      [("h1".toList, "x".toList), ("h2".toList, "y".toList)] (by decide) "h3".toList⟩

/-! ## C3 / C7 : _clean_sig machinery (scipy find_peaks) -/

lemma plateauScan_spec (x : List ℚ) (imax : Nat) (v : ℚ) :
    ∀ (f j : Nat), j ≤ imax → imax ≤ j + f →
      j ≤ plateauScan x imax v f j
      ∧ plateauScan x imax v f j ≤ imax
      ∧ (∀ k, j ≤ k → k < plateauScan x imax v f j → x.getD k 0 = v)
      ∧ (plateauScan x imax v f j < imax → x.getD (plateauScan x imax v f j) 0 ≠ v) := by
  intro f
  induction f with
  | zero =>
    intro j hj hf
    have hje : j = imax := by omega
    simp only [plateauScan]
    exact ⟨le_refl j, hj, fun k hk1 hk2 => absurd hk2 (by omega),
      fun h => absurd h (by omega)⟩
  | succ f ih =>
    intro j hj hf
    simp only [plateauScan]
    by_cases hc : j < imax ∧ x.getD j 0 = v
    · rw [if_pos hc]
      obtain ⟨r1, r2, r3, r4⟩ := ih (j + 1) (by omega) (by omega)
      refine ⟨by omega, r2, ?_, r4⟩
      intro k hk1 hk2
      rcases Nat.eq_or_lt_of_le hk1 with rfl | hk
      · exact hc.2
      · exact r3 k (by omega) hk2
    · rw [if_neg hc]
      refine ⟨le_refl j, hj, fun k hk1 hk2 => absurd hk2 (by omega), fun h hv => hc ⟨h, hv⟩⟩

lemma localMaxAux_bounds (x : List ℚ) (imax : Nat) :
    ∀ (f i : Nat), 1 ≤ i →
      (∀ m, m ∈ localMaxAux x imax f i → i ≤ m ∧ m + 1 ≤ imax)
      ∧ (localMaxAux x imax f i).Pairwise (· < ·) := by
  intro f
  induction f with
  | zero =>
    intro i _
    simp [localMaxAux]
  | succ f ih =>
    intro i hi
    simp only [localMaxAux]
    by_cases hii : i < imax
    · rw [if_pos hii]
      by_cases hrise : x.getD (i - 1) 0 < x.getD i 0
      · rw [if_pos hrise]
        obtain ⟨p1, p2, p3, p4⟩ :=
          plateauScan_spec x imax (x.getD i 0) imax (i + 1) (by omega) (by omega)
        set ia := plateauScan x imax (x.getD i 0) imax (i + 1) with hia
        by_cases hfall : x.getD ia 0 < x.getD i 0
        · rw [if_pos hfall]
          have hmid1 : i ≤ (i + ia - 1) / 2 := by omega
          have hmid2 : (i + ia - 1) / 2 + 1 ≤ ia := by omega
          constructor
          · intro m hm
            rcases List.mem_cons.mp hm with rfl | hm'
            · exact ⟨hmid1, by omega⟩
            · have := (ih (ia + 1) (by omega)).1 m hm'
              exact ⟨by omega, this.2⟩
          · refine List.pairwise_cons.mpr ⟨?_, (ih (ia + 1) (by omega)).2⟩
            intro m hm
            have := (ih (ia + 1) (by omega)).1 m hm
            omega
        · rw [if_neg hfall]
          refine ⟨fun m hm => ?_, (ih (i + 1) (by omega)).2⟩
          have := (ih (i + 1) (by omega)).1 m hm
          exact ⟨by omega, this.2⟩
      · rw [if_neg hrise]
        refine ⟨fun m hm => ?_, (ih (i + 1) (by omega)).2⟩
        have := (ih (i + 1) (by omega)).1 m hm
        exact ⟨by omega, this.2⟩
    · rw [if_neg hii]
      simp

/-- A (maximal) plateau of scipy `_local_maxima_1d`: constant values on
`[l, r]`, a strict rise into `l` and a strict fall after `r`, all indices
interior to `[1, imax - 1]`. -/
def IsPlateauPeak (x : List ℚ) (imax l r : Nat) : Prop :=
  1 ≤ l ∧ l ≤ r ∧ r + 1 ≤ imax
  ∧ x.getD (l - 1) 0 < x.getD l 0
  ∧ (∀ k, l ≤ k → k ≤ r → x.getD k 0 = x.getD l 0)
  ∧ x.getD (r + 1) 0 < x.getD l 0

lemma localMaxAux_complete (x : List ℚ) (imax : Nat) :
    ∀ (f i l r : Nat), 1 ≤ i → imax ≤ i + f →
      IsPlateauPeak x imax l r → i ≤ l →
      (l + r) / 2 ∈ localMaxAux x imax f i := by
  intro f
  induction f with
  | zero =>
    intro i l r hi hf hp hil
    obtain ⟨h1, h2, h3, _, _, _⟩ := hp
    omega
  | succ f ih =>
    intro i l r hi hf hp hil
    obtain ⟨h1, h2, h3, h4, h5, h6⟩ := hp
    have hii : i < imax := by omega
    simp only [localMaxAux]
    rw [if_pos hii]
    rcases Nat.eq_or_lt_of_le hil with rfl | hlgt
    · -- the scan position i is the left edge of this plateau
      rw [if_pos h4]
      obtain ⟨p1, p2, p3, p4⟩ :=
        plateauScan_spec x imax (x.getD i 0) imax (i + 1) (by omega) (by omega)
      set ia := plateauScan x imax (x.getD i 0) imax (i + 1) with hia
      have hiar : ia = r + 1 := by
        rcases Nat.lt_trichotomy ia (r + 1) with hlt | heq | hgt
        · exfalso
          have hia_lt : ia < imax := by omega
          exact p4 hia_lt (h5 ia (by omega) (by omega))
        · exact heq
        · exfalso
          have : x.getD (r + 1) 0 = x.getD i 0 := p3 (r + 1) (by omega) (by omega)
          rw [this] at h6
          exact lt_irrefl _ h6
      have hfall : x.getD ia 0 < x.getD i 0 := by
        rw [hiar]
        exact h6
      rw [if_pos hfall]
      have hmid : (i + ia - 1) / 2 = (i + r) / 2 := by omega
      rw [hmid]
      exact List.mem_cons_self _ _
    · -- the plateau starts strictly later; recurse
      by_cases hrise : x.getD (i - 1) 0 < x.getD i 0
      · rw [if_pos hrise]
        obtain ⟨p1, p2, p3, p4⟩ :=
          plateauScan_spec x imax (x.getD i 0) imax (i + 1) (by omega) (by omega)
        set ia := plateauScan x imax (x.getD i 0) imax (i + 1) with hia
        have hconst : ∀ k, i ≤ k → k < ia → x.getD k 0 = x.getD i 0 := by
          intro k hk1 hk2
          rcases Nat.eq_or_lt_of_le hk1 with rfl | hk
          · rfl
          · exact p3 k (by omega) hk2
        by_cases hfall : x.getD ia 0 < x.getD i 0
        · rw [if_pos hfall]
          have hlia : ia + 1 ≤ l := by
            by_contra hcon
            push_neg at hcon
            rcases Nat.lt_or_ge l ia with hl1 | hl2
            · have e0 : x.getD l 0 = x.getD i 0 := hconst l (by omega) hl1
              have e1 : x.getD (l - 1) 0 = x.getD i 0 := hconst (l - 1) (by omega) (by omega)
              rw [e0, e1] at h4
              exact lt_irrefl _ h4
            · have hleq : l = ia := by omega
              have e1 : x.getD (l - 1) 0 = x.getD i 0 := hconst (l - 1) (by omega) (by omega)
              rw [e1, hleq] at h4
              exact absurd hfall (not_lt.mpr h4.le)
          exact List.mem_cons_of_mem _
            (ih (ia + 1) l r (by omega) (by omega) ⟨h1, h2, h3, h4, h5, h6⟩ hlia)
        · rw [if_neg hfall]
          exact ih (i + 1) l r (by omega) (by omega) ⟨h1, h2, h3, h4, h5, h6⟩ (by omega)
      · rw [if_neg hrise]
        exact ih (i + 1) l r (by omega) (by omega) ⟨h1, h2, h3, h4, h5, h6⟩ (by omega)

lemma find_peaks_bounds (x : List ℚ) (t : ℚ) :
    ∀ p, p ∈ find_peaks x t → 1 ≤ p ∧ p + 2 ≤ x.length := by
  intro p hp
  have hmem : p ∈ local_maxima_1d x := (List.mem_filter.mp hp).1
  have hb := (localMaxAux_bounds x (x.length - 1) x.length 1 (le_refl 1)).1 p hmem
  omega

lemma find_peaks_sorted (x : List ℚ) (t : ℚ) : (find_peaks x t).Pairwise (· < ·) :=
  List.Pairwise.filter _ (localMaxAux_bounds x (x.length - 1) x.length 1 (le_refl 1)).2

lemma find_peaks_mem_iff (x : List ℚ) (t : ℚ) (ht : 0 < t) (p : Nat) :
    p ∈ find_peaks x t ↔
      1 ≤ p ∧ p + 2 ≤ x.length
      ∧ t ≤ x.getD p 0 - x.getD (p - 1) 0 ∧ t ≤ x.getD p 0 - x.getD (p + 1) 0 := by
  constructor
  · intro hp
    obtain ⟨hb1, hb2⟩ := find_peaks_bounds x t p hp
    have hcond := (List.mem_filter.mp hp).2
    simp only [Bool.and_eq_true, decide_eq_true_eq] at hcond
    exact ⟨hb1, hb2, hcond.1, hcond.2⟩
  · rintro ⟨h1, h2, h3, h4⟩
    have hpk : IsPlateauPeak x (x.length - 1) p p :=
      ⟨h1, le_refl p, by omega, by linarith,
       fun k hk1 hk2 => by
         have hkp : k = p := le_antisymm hk2 hk1
         rw [hkp],
       by linarith⟩
    rw [find_peaks, List.mem_filter]
    constructor
    · have := localMaxAux_complete x (x.length - 1) x.length 1 p p (le_refl 1)
        (by omega) hpk h1
      have hmid : (p + p) / 2 = p := by omega
      rwa [hmid] at this
    · simp only [Bool.and_eq_true, decide_eq_true_eq]
      exact ⟨h3, h4⟩

lemma getD_set_ne (sig : List ℚ) (i n : Nat) (m : ℚ) (h : i ≠ n) :
    (sig.set i m).getD n 0 = sig.getD n 0 := by
  rw [List.getD_eq_getElem?_getD, List.getElem?_set_ne h, ← List.getD_eq_getElem?_getD]

lemma getD_set_self (sig : List ℚ) (i : Nat) (m : ℚ) (h : i < sig.length) :
    (sig.set i m).getD i 0 = m := by
  rw [List.getD_eq_getElem?_getD, List.getElem?_set_self h]
  rfl

lemma cleanLoop_getD :
    ∀ (pks : List Nat) (sig : List ℚ) (j : Nat),
      (∀ p, p ∈ pks → 1 ≤ p ∧ p + 2 ≤ sig.length) →
      pks.Pairwise (fun p q => p + 2 ≤ q) →
      (cleanLoop sig pks).getD j 0
        = if j ∈ pks then (sig.getD (j - 1) 0 + sig.getD (j + 1) 0) / 2
          else sig.getD j 0 := by
  intro pks
  induction pks with
  | nil =>
    intro sig j _ _
    simp [cleanLoop]
  | cons i rest ih =>
    intro sig j hb hp
    simp only [cleanLoop]
    have hbi := hb i (List.mem_cons_self i rest)
    have hgap : ∀ p ∈ rest, i + 2 ≤ p := (List.pairwise_cons.mp hp).1
    rw [ih (sig.set i ((sig.getD (i - 1) 0 + sig.getD (i + 1) 0) / 2)) j
      (fun p hpr => by
        rw [List.length_set]
        exact hb p (List.mem_cons_of_mem _ hpr))
      (List.pairwise_cons.mp hp).2]
    by_cases hj : j ∈ rest
    · have hji : i + 2 ≤ j := hgap j hj
      rw [if_pos hj, if_pos (List.mem_cons_of_mem _ hj),
        getD_set_ne _ _ _ _ (by omega), getD_set_ne _ _ _ _ (by omega)]
    · rw [if_neg hj]
      by_cases hje : j = i
      · subst hje
        rw [if_pos (List.mem_cons_self _ _), getD_set_self _ _ _ (by omega)]
      · rw [if_neg (by
          simp only [List.mem_cons, not_or]
          exact ⟨hje, hj⟩), getD_set_ne _ _ _ _ (fun h => hje h.symm)]

/-- Every index removed by `_clean_sig` is interior: `find_peaks` only scans
indices `1 .. len - 2`, so the two neighbours read during replacement exist. -/
lemma clean_sig_removed_interior (sig : List ℚ) (t : ℚ) :
    ∀ i, i ∈ (clean_sig sig t).2 → 1 ≤ i ∧ i + 2 ≤ sig.length := by
  intro i hi
  have : i ∈ find_peaks (sig.map (fun v => |v|)) t := hi
  have hb := find_peaks_bounds _ t i this
  rwa [List.length_map] at hb

/-- Claim C3 (amended): with a positive threshold `t = n_sigma × std(signal)`,
`_clean_sig` removes exactly the interior samples whose absolute value rises
above EACH immediate neighbour's absolute value by at least the threshold
(scipy's `threshold` is a required vertical distance to both neighbours, not a
bound on the sample's own magnitude); each removed sample is replaced by the
arithmetic mean of its two original neighbours; the removed indices are
returned in strictly ascending order; and on `[0, 0, 100, 0, 0]` with
`n_sigma = 1` (threshold `40 = std`) the result is `[0, 0, 0, 0, 0]` with
removed list `[2]`. -/
theorem c3_clean_sig (sig : List ℚ) (t n_sigma : ℚ)
    (ht2 : t ^ 2 = npVariance sig * n_sigma ^ 2) (htpos : 0 < t) :
    (∀ p, p ∈ (clean_sig sig t).2 ↔
        (1 ≤ p ∧ p + 2 ≤ sig.length
          ∧ t ≤ |sig.getD p 0| - |sig.getD (p - 1) 0|
          ∧ t ≤ |sig.getD p 0| - |sig.getD (p + 1) 0|))
    ∧ (∀ j, (clean_sig sig t).1.getD j 0
        = if j ∈ (clean_sig sig t).2 then (sig.getD (j - 1) 0 + sig.getD (j + 1) 0) / 2
          else sig.getD j 0)
    ∧ (clean_sig sig t).2.Pairwise (· < ·)
    ∧ clean_sig [0, 0, 100, 0, 0] 40 = ([0, 0, 0, 0, 0], [2])
    ∧ (40 : ℚ) ^ 2 = npVariance [0, 0, 100, 0, 0] * 1 ^ 2 := by
  have hchar : ∀ p, p ∈ find_peaks (sig.map (fun v => |v|)) t ↔
      (1 ≤ p ∧ p + 2 ≤ sig.length
        ∧ t ≤ |sig.getD p 0| - |sig.getD (p - 1) 0|
        ∧ t ≤ |sig.getD p 0| - |sig.getD (p + 1) 0|) := by
    intro p
    rw [find_peaks_mem_iff _ t htpos p, List.length_map]
    constructor
    · rintro ⟨h1, h2, h3, h4⟩
      rw [getD_map_lt _ _ _ (by omega) _ 0, getD_map_lt _ _ _ (by omega) _ 0] at h3
      rw [getD_map_lt _ _ _ (by omega) _ 0, getD_map_lt _ _ _ (by omega) _ 0] at h4
      exact ⟨h1, h2, h3, h4⟩
    · rintro ⟨h1, h2, h3, h4⟩
      refine ⟨h1, h2, ?_, ?_⟩
      · rw [getD_map_lt _ _ _ (by omega) _ 0, getD_map_lt _ _ _ (by omega) _ 0]
        exact h3
      · rw [getD_map_lt _ _ _ (by omega) _ 0, getD_map_lt _ _ _ (by omega) _ 0]
        exact h4
  have hgap : (find_peaks (sig.map (fun v => |v|)) t).Pairwise (fun p q => p + 2 ≤ q) := by
    refine (find_peaks_sorted _ t).imp_of_mem ?_
    intro p q hpmem hqmem hlt
    by_contra hcon
    have hq : q = p + 1 := by omega
    have c1 := ((find_peaks_mem_iff _ t htpos p).mp hpmem).2.2.2
    have c2 := ((find_peaks_mem_iff _ t htpos q).mp hqmem).2.2.1
    rw [hq, Nat.add_sub_cancel] at c2
    linarith
  refine ⟨hchar, ?_, find_peaks_sorted _ t, ?_, by norm_num [npVariance, npMean]⟩
  · intro j
    exact cleanLoop_getD (find_peaks (sig.map (fun v => |v|)) t) sig j
      (fun p hpm => by
        have := (hchar p).mp hpm
        exact ⟨this.1, this.2.1⟩)
      hgap
  · norm_num [clean_sig, find_peaks, local_maxima_1d, localMaxAux, plateauScan, cleanLoop,
      List.filter, List.set]

/-- Witness for C3 at the spec's own example: signal `[0, 0, 100, 0, 0]`,
`n_sigma = 1`, threshold `40`. -/
theorem c3_clean_sig_witness :
    clean_sig [0, 0, 100, 0, 0] 40 = ([0, 0, 0, 0, 0], [2]) :=
  (c3_clean_sig [0, 0, 100, 0, 0] 40 1 (by norm_num [npVariance, npMean])
    (by norm_num)).2.2.2.1

/-- Counterexample for C3 as stated: on `[0, 0, 100, 0, 0]` the standard
deviation is exactly 40, so with `n_sigma = 5/2` the threshold is 100; sample 2
has `|100| ≤ 100`, i.e. its absolute value does NOT exceed the threshold, so by
the claim it must not be detected — yet the code removes index 2 (scipy's
`threshold` measures the rise over each neighbour, `100 - 0 ≥ 100`, not the
magnitude). -/
theorem c3_clean_sig_counterexample :
    (100 : ℚ) ^ 2 = npVariance [0, 0, 100, 0, 0] * (5 / 2) ^ 2
    ∧ (clean_sig [0, 0, 100, 0, 0] 100).2 = [2]
    ∧ |([0, 0, 100, 0, 0] : List ℚ).getD 2 0| ≤ 100 := by
  refine ⟨by norm_num [npVariance, npMean], ?_, by norm_num [List.getD]⟩
  norm_num [clean_sig, find_peaks, local_maxima_1d, localMaxAux, plateauScan, List.filter]

/-- Claim C7 (amended): no detected peak is ever at index 0 or at the last
index — scipy's peak scan only visits interior indices, so every removed index `i`
satisfies `1 ≤ i` and `i + 2 ≤ length`, and the neighbour replacement
`sig[i-1]`, `sig[i+1]` is always in bounds; the claimed boundary
index-out-of-range failure cannot occur. -/
theorem c7_boundary_peaks (sig : List ℚ) (t : ℚ) :
    ∀ i, i ∈ (clean_sig sig t).2 → 1 ≤ i ∧ i + 2 ≤ sig.length :=
  clean_sig_removed_interior sig t

/-- Witness for C7: the removed index 2 of the example signal is interior. -/
theorem c7_boundary_peaks_witness :
    1 ≤ 2 ∧ 2 + 2 ≤ ([0, 0, 100, 0, 0] : List ℚ).length :=
  c7_boundary_peaks [0, 0, 100, 0, 0] 100 2
    (by norm_num [clean_sig, find_peaks, local_maxima_1d, localMaxAux, plateauScan,
      List.filter])

/-- Counterexample for C7 as stated: there is NO input signal and threshold for
which a detected peak sits at index 0 or at the last index, so the claimed
reference failure (index-out-of-range during neighbour replacement) is
impossible. -/
theorem c7_boundary_peaks_counterexample :
    (∃ (sig : List ℚ) (t : ℚ) (i : Nat),
        i ∈ (clean_sig sig t).2 ∧ (i = 0 ∨ i = sig.length - 1)) ↔ False := by
  simp only [iff_false]
  rintro ⟨sig, t, i, hmem, hi⟩
  have hb := clean_sig_removed_interior sig t i hmem
  rcases hi with rfl | hlast
  · omega
  · omega

end Thornpy
